import Mathlib

/-!
Shallow embedding of the `find-serverless-stacks` repository (Go) in Lean 4,
covering the stack-detection rule engine (`internal/detector/rules.go`),
the detection coordinator (`Detector` and its methods, defined alongside the
tests in `internal/detector/concurrent_test.go`), the result model
(`internal/models`), and the TSV output formatter
(`internal/output/formatter.go`).

Modelling conventions:
- Go pointers to values (`*string`, `*time.Time`, `*types.Stack`) become
  `Option`; a nil pointer is `none`.
- `time.Time` is abstracted to a `Nat` tick count whose zero value `0` plays
  the role of Go's zero time (`IsZero`).  `time.Now()` becomes an explicit
  `now : Nat` parameter threaded through the coordinator.
- Go `error` values are abstracted to `String`; fallible calls return
  `Except String α`.
- Go's `map[string]string` becomes an association list built with
  overwrite-on-duplicate-key insertion; the nil map versus empty map
  distinction (visible in JSON output) is kept by wrapping the field in
  `Option`.
- The worker pool of `processStacksConcurrently` processes each candidate
  with the pure per-stack function `processStack` and merely scrambles
  the order of the collected results; we model the canonical sequential
  schedule in which results appear in job order.
-/

/-- `types.StackResource` (the fields read by the detector): a stack resource
with optional logical id and resource type (Go `*string` fields). -/
structure StackResource where
  logicalResourceId : Option String
  resourceType : Option String
deriving DecidableEq, Repr

/-- `types.Tag`: a stack tag with optional key and value (Go `*string`). -/
structure Tag where
  key : Option String
  value : Option String
deriving DecidableEq, Repr

/-- `types.Stack` (the detail record; fields read by `convertToModel`):
optional description, optional creation/update timestamps, and tag list. -/
structure TypesStack where
  description : Option String
  creationTime : Option Nat
  lastUpdatedTime : Option Nat
  tags : List Tag
deriving DecidableEq, Repr

/-- `types.StackSummary` (the fields read by the detector): optional name,
optional stack id, optional creation/update timestamps. -/
structure StackSummary where
  stackName : Option String
  stackId : Option String
  creationTime : Option Nat
  lastUpdatedTime : Option Nat
deriving DecidableEq, Repr

/-- `models.Stack`: the result model.  `stackTags` is `Option` to keep Go's
nil-map versus empty-map distinction (`map[string]string` zero value is nil). -/
structure ModelsStack where
  stackName : String
  stackID : String
  region : String
  createdAt : Nat
  updatedAt : Nat
  description : String
  stackTags : Option (List (String × String))
  reasons : List String
deriving DecidableEq, Repr

/-- `detector.DetectionRule`: a detection rule, `Check` plus `Name`
(interface methods become record fields; `Check` is a pure function of
`(resources, details)`, mirroring that the Go rule values carry no state). -/
structure DetectionRule where
  check : List StackResource → Option TypesStack → Bool × String
  ruleName : String

/-- `detector.hasServerlessDeploymentBucket` (concurrent_test.go:307-317):
scans the resource list for an entry whose logical id is exactly
`ServerlessDeploymentBucket` and whose type is exactly `AWS::S3::Bucket`
(both pointer non-nil checks become `some` matches). -/
def hasServerlessDeploymentBucket : List StackResource → Bool
  | [] => false
  | r :: rs =>
    if r.logicalResourceId = some "ServerlessDeploymentBucket" ∧
        r.resourceType = some "AWS::S3::Bucket" then
      true
    else
      hasServerlessDeploymentBucket rs

/-- `detector.ServerlessDeploymentBucketRule` (rules.go:11-23). -/
def ServerlessDeploymentBucketRule : DetectionRule where
  check := fun resources _details =>
    if hasServerlessDeploymentBucket resources then
      (true, "Contains resource with logical ID \x27ServerlessDeploymentBucket\x27")
    else
      (false, "")
  ruleName := "ServerlessDeploymentBucket"

/-- `detector.RuleEngine` (rules.go:26-28): an ordered list of rules. -/
structure RuleEngine where
  rules : List DetectionRule

/-- `detector.NewRuleEngine` (rules.go:31-37): the default engine holds the
single `ServerlessDeploymentBucketRule`. -/
def NewRuleEngine : RuleEngine :=
  { rules := [ServerlessDeploymentBucketRule] }

/-- `RuleEngine.Evaluate` (rules.go:45-57): fold over the registered rules,
setting the flag and appending the reason for every matching rule.  The Go
loop's two mutable locals `isServerless`/`reasons` become the fold
accumulator. -/
def Evaluate (re : RuleEngine) (resources : List StackResource)
    (details : Option TypesStack) : Bool × List String :=
  re.rules.foldl
    (fun acc rule =>
      let r := rule.check resources details
      if r.1 then (true, acc.2 ++ [r.2]) else acc)
    (false, [])

/-- State-passing form of `Evaluate` for the pointer receiver
`(re *RuleEngine)`: the method body (rules.go:45-57) only reads `re.rules`
and never assigns through the receiver, so the post-state engine is the
input engine unchanged. -/
def EvaluateSt (re : RuleEngine) (resources : List StackResource)
    (details : Option TypesStack) : (Bool × List String) × RuleEngine :=
  (Evaluate re resources details, re)

/-- The reason a rule contributes to `Evaluate`'s reason list, if it matches. -/
def ruleReason (resources : List StackResource) (details : Option TypesStack)
    (rule : DetectionRule) : Option String :=
  let r := rule.check resources details
  if r.1 then some r.2 else none

/-- `detector.AWSClient` (concurrent_test.go:188-192): the data-source
interface.  Each operation may fail; `getStackDetails` may also succeed
with a nil pointer. -/
structure AWSClient where
  listActiveStacks : Except String (List StackSummary)
  getStackResources : String → Except String (List StackResource)
  getStackDetails : String → Except String (Option TypesStack)

/-- `detector.Detector` (concurrent_test.go:194-200). -/
structure Detector where
  client : AWSClient
  region : String
  ruleEngine : RuleEngine
  maxWorkers : Nat

/-- `detector.NewDetector` (concurrent_test.go:203-210): default engine and
a default pool size of 10. -/
def NewDetector (client : AWSClient) (region : String) : Detector :=
  { client := client
    region := region
    ruleEngine := NewRuleEngine
    maxWorkers := 10 }

/-- `insertTag m k v` models `m[k] = v` on a Go `map[string]string`
represented as an association list: overwrite the value if the key is
present, otherwise append the binding. -/
def insertTag (m : List (String × String)) (k v : String) :
    List (String × String) :=
  if m.any (fun p => p.1 = k) then
    m.map (fun p => if p.1 = k then (p.1, v) else p)
  else
    m ++ [(k, v)]

/-- The tag-conversion loop of `convertToModel` (concurrent_test.go:347-352):
insert each tag whose key and value pointers are both non-nil, dropping the
rest. -/
def buildTags (ts : List Tag) : List (String × String) :=
  ts.foldl
    (fun m t =>
      match t.key, t.value with
      | some k, some v => insertTag m k v
      | _, _ => m)
    []

/-- One step of the tag-conversion fold. -/
def buildTagsStep (m : List (String × String)) (t : Tag) :
    List (String × String) :=
  match t.key, t.value with
  | some k, some v => insertTag m k v
  | _, _ => m

/-- `Detector.convertToModel` (concurrent_test.go:320-373).  The Go method's
field assignments on the mutable local `stack` become a chain of record
updates; `time.Now().UTC()` is the explicit `now` parameter. -/
def convertToModel (d : Detector) (now : Nat) (summary : StackSummary)
    (details : Option TypesStack) (reasons : List String) : ModelsStack :=
  let stack : ModelsStack :=
    { stackName := ""
      stackID := ""
      region := d.region
      createdAt := 0
      updatedAt := 0
      description := ""
      stackTags := none
      reasons := reasons }
  let stack := match summary.stackName with
    | some n => { stack with stackName := n }
    | none => stack
  let stack := match summary.stackId with
    | some i => { stack with stackID := i }
    | none => stack
  let stack : ModelsStack := match details with
    | some dd =>
      let stack := match dd.description with
        | some s => { stack with description := s }
        | none => stack
      let stack := match dd.creationTime with
        | some t => { stack with createdAt := t }
        | none => stack
      let stack := match dd.lastUpdatedTime with
        | some t => { stack with updatedAt := t }
        | none => stack
      { stack with stackTags := some (buildTags dd.tags) }
    | none =>
      let stack := match summary.creationTime with
        | some t => { stack with createdAt := t }
        | none => stack
      let stack := match summary.lastUpdatedTime with
        | some t => { stack with updatedAt := t }
        | none => stack
      { stack with stackTags := some [] }
  let stack : ModelsStack :=
    if stack.createdAt = 0 then { stack with createdAt := now } else stack
  let stack : ModelsStack :=
    if stack.updatedAt = 0 then { stack with updatedAt := stack.createdAt } else stack
  stack

/-- `Detector.processStack` (concurrent_test.go:275-304): skip on nil name,
skip on resource-fetch error, degrade `details` to nil on detail-fetch
error, evaluate the rules, and emit a model only on a positive verdict. -/
def processStack (d : Detector) (now : Nat) (summary : StackSummary) :
    Option ModelsStack :=
  match summary.stackName with
  | none => none
  | some stackName =>
    match d.client.getStackResources stackName with
    | .error _ => none
    | .ok resources =>
      let details : Option TypesStack :=
        match d.client.getStackDetails stackName with
        | .error _ => none
        | .ok dd => dd
      let v := Evaluate d.ruleEngine resources details
      if v.1 then some (convertToModel d now summary details v.2) else none

/-- The effective worker count of `processStacksConcurrently`
(concurrent_test.go:231-234): start from `maxWorkers` and clamp down to the
candidate count when the latter is smaller. -/
def effectiveNumWorkers (maxWorkers : Nat) (summaries : List StackSummary) : Nat :=
  if summaries.length < maxWorkers then summaries.length else maxWorkers

/-- `Detector.processStacksConcurrently` (concurrent_test.go:224-262).  The
worker pool dispatches each summary to the pure `processStack` and collects
the non-nil results; we model the canonical sequential schedule (results in
job order).  The method always returns a nil error. -/
def processStacksConcurrently (d : Detector) (now : Nat)
    (summaries : List StackSummary) : Except String (List ModelsStack) :=
  .ok (summaries.filterMap (processStack d now))

/-- `Detector.DetectServerlessStacks` (concurrent_test.go:213-221):
propagate a listing failure, otherwise process the candidates. -/
def DetectServerlessStacks (d : Detector) (now : Nat) :
    Except String (List ModelsStack) :=
  match d.client.listActiveStacks with
  | .error e => .error e
  | .ok summaries => processStacksConcurrently d now summaries

/-- The creation timestamp supplied by the data source as `convertToModel`
reads it: from the detail record when one is available, otherwise from the
summary; a nil pointer counts as the zero time. -/
def sourceCreatedAt (summary : StackSummary) (details : Option TypesStack) : Nat :=
  match details with
  | some dd => dd.creationTime.getD 0
  | none => summary.creationTime.getD 0

/-- The update timestamp supplied by the data source, read like
`sourceCreatedAt`. -/
def sourceUpdatedAt (summary : StackSummary) (details : Option TypesStack) : Nat :=
  match details with
  | some dd => dd.lastUpdatedTime.getD 0
  | none => summary.lastUpdatedTime.getD 0

/-- Fixture: three candidates — one serverless stack, one whose resource
fetch fails, one plain stack. -/
def summaryA : StackSummary := ⟨some "app-a", some "id-a", some 5, none⟩

/-- Fixture candidate whose resource fetch fails. -/
def summaryB : StackSummary := ⟨some "app-b", some "id-b", some 6, none⟩

/-- Fixture candidate that is not serverless. -/
def summaryC : StackSummary := ⟨some "app-c", some "id-c", some 7, none⟩

/-- Fixture client for the isolation witness: listing succeeds with three
candidates, `app-b`'s resource fetch fails, details are always nil. -/
def clientABC : AWSClient where
  listActiveStacks := .ok [summaryA, summaryB, summaryC]
  getStackResources := fun nm =>
    if nm = "app-a" then
      .ok [⟨some "ServerlessDeploymentBucket", some "AWS::S3::Bucket"⟩]
    else if nm = "app-b" then
      .error "throttled"
    else
      .ok [⟨some "RegularBucket", some "AWS::S3::Bucket"⟩]
  getStackDetails := fun _ => .ok none

/-- Fixture client for the detail-failure witness: one candidate whose
resources match the signature rule but whose detail fetch fails. -/
def clientDetailFail : AWSClient where
  listActiveStacks := .ok [⟨some "app-e", some "id-e", some 9, none⟩]
  getStackResources := fun _ =>
    .ok [⟨some "ServerlessDeploymentBucket", some "AWS::S3::Bucket"⟩]
  getStackDetails := fun _ => .error "denied"

/-- Fixture client whose listing returns no candidates. -/
def clientEmpty : AWSClient where
  listActiveStacks := .ok []
  getStackResources := fun _ => .ok []
  getStackDetails := fun _ => .ok none

/-- Fixture client whose listing fails. -/
def clientListFail : AWSClient where
  listActiveStacks := .error "AccessDenied"
  getStackResources := fun _ => .ok []
  getStackDetails := fun _ => .ok none

/-- Replace every occurrence of the character `c` by the character list
`rep` (the character-level reading of Go `strings.ReplaceAll` for a
single-character pattern). -/
def replaceChar (c : Char) (rep : List Char) : List Char → List Char
  | [] => []
  | x :: xs =>
    if x = c then rep ++ replaceChar c rep xs else x :: replaceChar c rep xs

/-- `TSVFormatter.escapeValue` (formatter.go:87-92): escape embedded tab,
newline and carriage-return characters as the literal two-character
sequences `\t`, `\n`, `\r` (three chained `strings.ReplaceAll` calls). -/
def escapeValue (s : String) : String :=
  ⟨replaceChar (Char.ofNat 13) [Char.ofNat 92, Char.ofNat 114]
    (replaceChar (Char.ofNat 10) [Char.ofNat 92, Char.ofNat 110]
      (replaceChar (Char.ofNat 9) [Char.ofNat 92, Char.ofNat 116] s.data))⟩

/-- Rendering of the abstract `Nat` timestamp; stands in for the RFC3339
rendering of `time.Time`, which the `Nat` abstraction cannot reproduce
(decimal rendering is likewise injective and newline/tab-free). -/
def timeRFC3339 (t : Nat) : String := toString t

/-- `TSVFormatter.formatTime` (formatter.go:95-100): the zero time renders
as the empty string, any other time via `timeRFC3339`. -/
def formatTime (t : Nat) : String :=
  if t = 0 then "" else timeRFC3339 t

/-- Bytewise-lexicographic string order: `lexLe a.data b.data` holds exactly
when Go would order the string `a` at or before `b` (UTF-8 byte order
coincides with code-point order). -/
def lexLe : List Char → List Char → Bool
  | [], _ => true
  | _ :: _, [] => false
  | x :: xs, y :: ys =>
    if x.toNat < y.toNat then true
    else if y.toNat < x.toNat then false
    else lexLe xs ys

/-- String comparison used to model Go `sort.Strings`. -/
def strLe (a b : String) : Bool := lexLe a.data b.data

/-- Insert a key into an already sorted key list (one step of the
insertion-sort model of `sort.Strings`). -/
def insertSortedKey (k : String) : List String → List String
  | [] => [k]
  | x :: xs => if strLe k x then k :: x :: xs else x :: insertSortedKey k xs

/-- Ascending sort of a key list, modelling `sort.Strings`
(formatter.go:115). -/
def sortStrings : List String → List String
  | [] => []
  | x :: xs => insertSortedKey x (sortStrings xs)

/-- `strings.Join`: concatenate with `sep` between consecutive elements. -/
def joinWith (sep : String) : List String → String
  | [] => ""
  | [x] => x
  | x :: xs => x ++ sep ++ joinWith sep xs

/-- Go map access `tags[key]` on the association-list model: the bound
value, or the zero value `""` when the key is missing. -/
def lookupTag (ts : List (String × String)) (k : String) : String :=
  ((ts.find? (fun p => p.1 = k)).map Prod.snd).getD ""

/-- `TSVFormatter.formatTags` (formatter.go:103-124): empty map renders as
the empty cell; otherwise the keys are collected, sorted, and rendered as
`;`-joined escaped `key=value` pairs. -/
def formatTags (tags : Option (List (String × String))) : String :=
  let ts := tags.getD []
  if ts.length = 0 then ""
  else
    joinWith ";"
      ((sortStrings (ts.map Prod.fst)).map
        (fun k => escapeValue k ++ "=" ++ escapeValue (lookupTag ts k)))

/-- `TSVFormatter.formatReasons` (formatter.go:127-138): `;`-joined escaped
reasons, empty cell for an empty list. -/
def formatReasons (reasons : List String) : String :=
  if reasons.length = 0 then ""
  else joinWith ";" (reasons.map escapeValue)

/-- The data row of one result (formatter.go:63-72). -/
def tsvRow (stack : ModelsStack) : List String :=
  [escapeValue stack.stackName,
   escapeValue stack.stackID,
   escapeValue stack.region,
   escapeValue stack.description,
   formatTime stack.createdAt,
   formatTime stack.updatedAt,
   formatTags stack.stackTags,
   formatReasons stack.reasons]

/-- Strip one trailing newline byte, modelling
`if strings.HasSuffix(output, "\n") { output = output[:len(output)-1] }`
(formatter.go:78-81) at the byte level. -/
def stripTrailingNewline (s : String) : String :=
  if s.data.getLast? = some (Char.ofNat 10) then ⟨s.data.dropLast⟩ else s

/-- `TSVFormatter.Format` (formatter.go:44-84): header line, one data row
per stack appended with a trailing newline each, then the final newline is
stripped.  The `strings.Builder` becomes a fold over the stack list. -/
def TSVFormat (stackList : List ModelsStack) : String :=
  let header := joinWith "\t"
    ["StackName", "StackID", "Region", "Description", "CreatedAt",
     "UpdatedAt", "Tags", "Reasons"]
  let out := stackList.foldl
    (fun acc stack => acc ++ joinWith "\t" (tsvRow stack) ++ "\n")
    (header ++ "\n")
  stripTrailingNewline out

/-- Concatenation of lines, each with a trailing newline (the shape of the
builder contents in `TSVFormatter.Format` before the final strip). -/
def linesConcat : List String → String
  | [] => ""
  | r :: rs => r ++ "\n" ++ linesConcat rs

lemma evaluate_foldl_characterisation (resources : List StackResource)
    (details : Option TypesStack) :
    ∀ (rules : List DetectionRule) (acc : Bool × List String),
      rules.foldl
        (fun acc rule =>
          let r := rule.check resources details
          if r.1 then (true, acc.2 ++ [r.2]) else acc)
        acc
      = (acc.1 || rules.any (fun rule => (rule.check resources details).1),
         acc.2 ++ rules.filterMap (ruleReason resources details)) := by
  intro rules
  induction rules with
  | nil => intro acc; simp
  | cons r rs ih =>
    intro acc
    by_cases h : (r.check resources details).1 = true
    · simp only [List.foldl_cons, h, if_pos, List.any_cons, List.filterMap_cons,
        ruleReason, h]
      rw [ih]
      simp [h]
    · simp only [List.foldl_cons, List.any_cons, List.filterMap_cons, ruleReason]
      rw [if_neg (by simpa using h), ih]
      simp [h, ruleReason]

lemma evaluate_eq (re : RuleEngine) (resources : List StackResource)
    (details : Option TypesStack) :
    Evaluate re resources details
      = (re.rules.any (fun rule => (rule.check resources details).1),
         re.rules.filterMap (ruleReason resources details)) := by
  unfold Evaluate
  rw [evaluate_foldl_characterisation]
  simp

lemma any_check_iff_filterMap_ne_nil (rules : List DetectionRule)
    (resources : List StackResource) (details : Option TypesStack) :
    rules.any (fun rule => (rule.check resources details).1) = true
      ↔ rules.filterMap (ruleReason resources details) ≠ [] := by
  rw [List.any_eq_true, Ne, List.filterMap_eq_nil_iff]
  constructor
  · rintro ⟨rule, hmem, hcheck⟩ hall
    have := hall rule hmem
    simp only [ruleReason, hcheck, if_pos] at this
    exact Option.noConfusion this
  · intro h
    by_contra hnone
    push_neg at hnone
    apply h
    intro rule hmem
    have hfalse : (rule.check resources details).1 = false := by
      have := hnone rule hmem
      simpa using this
    simp [ruleReason, hfalse]

lemma convertToModel_eq (d : Detector) (now : Nat) (summary : StackSummary)
    (details : Option TypesStack) (reasons : List String) :
    convertToModel d now summary details reasons =
      { stackName := summary.stackName.getD ""
        stackID := summary.stackId.getD ""
        region := d.region
        createdAt :=
          if sourceCreatedAt summary details = 0 then now
          else sourceCreatedAt summary details
        updatedAt :=
          if sourceUpdatedAt summary details = 0 then
            (if sourceCreatedAt summary details = 0 then now
             else sourceCreatedAt summary details)
          else sourceUpdatedAt summary details
        description := (details.bind TypesStack.description).getD ""
        stackTags :=
          some (match details with | some dd => buildTags dd.tags | none => [])
        reasons := reasons } := by
  rcases summary with ⟨sn, si, sc, su⟩
  cases details with
  | none =>
    cases sn <;> cases si <;> cases sc <;> cases su <;>
      simp [convertToModel, sourceCreatedAt, sourceUpdatedAt] <;>
      split_ifs <;> simp_all
  | some dd =>
    rcases dd with ⟨ddesc, dct, dut, dtags⟩
    cases sn <;> cases si <;> cases ddesc <;> cases dct <;> cases dut <;>
      simp [convertToModel, sourceCreatedAt, sourceUpdatedAt] <;>
      split_ifs <;> simp_all

lemma mem_insertTag (m : List (String × String)) (k v k' v' : String)
    (h : (k', v') ∈ insertTag m k v) : (k', v') ∈ m ∨ (k' = k ∧ v' = v) := by
  unfold insertTag at h
  by_cases hany : m.any (fun p => p.1 = k) = true
  · rw [if_pos hany] at h
    rcases List.mem_map.mp h with ⟨p, hp, heq⟩
    by_cases hk : p.1 = k
    · rw [if_pos hk] at heq
      right
      injection heq with h1 h2
      exact ⟨h1.symm.trans hk, h2.symm⟩
    · rw [if_neg hk] at heq
      left; exact heq ▸ hp
  · rw [if_neg hany] at h
    rcases List.mem_append.mp h with hm | hm
    · left; exact hm
    · right; simpa using hm

lemma keys_insertTag (m : List (String × String)) (k v k' : String) :
    (∃ v', (k', v') ∈ insertTag m k v) ↔ k' = k ∨ ∃ v', (k', v') ∈ m := by
  unfold insertTag
  by_cases hany : m.any (fun p => p.1 = k) = true
  · rw [if_pos hany]
    constructor
    · rintro ⟨v', hmem⟩
      rcases List.mem_map.mp hmem with ⟨p, hp, heq⟩
      by_cases hk : p.1 = k
      · rw [if_pos hk] at heq
        injection heq with h1 _
        exact Or.inl (h1.symm.trans hk)
      · rw [if_neg hk] at heq
        exact Or.inr ⟨v', heq ▸ hp⟩
    · rintro (hk | ⟨v', hmem⟩)
      · rcases List.any_eq_true.mp hany with ⟨p, hp, hpk⟩
        simp only [decide_eq_true_eq] at hpk
        refine ⟨v, List.mem_map.mpr ⟨p, hp, ?_⟩⟩
        rw [if_pos hpk, hpk, hk]
      · by_cases hk : k' = k
        · rcases List.any_eq_true.mp hany with ⟨p, hp, hpk⟩
          simp only [decide_eq_true_eq] at hpk
          refine ⟨v, List.mem_map.mpr ⟨p, hp, ?_⟩⟩
          rw [if_pos hpk, hpk, hk]
        · refine ⟨v', List.mem_map.mpr ⟨(k', v'), hmem, ?_⟩⟩
          rw [if_neg hk]
  · rw [if_neg hany]
    constructor
    · rintro ⟨v', hmem⟩
      rcases List.mem_append.mp hmem with hm | hm
      · exact Or.inr ⟨v', hm⟩
      · simp only [List.mem_singleton, Prod.mk.injEq] at hm
        exact Or.inl hm.1
    · rintro (hk | ⟨v', hmem⟩)
      · exact ⟨v, List.mem_append.mpr (Or.inr (by simp [hk]))⟩
      · exact ⟨v', List.mem_append.mpr (Or.inl hmem)⟩

lemma buildTags_eq_foldl (ts : List Tag) :
    buildTags ts = ts.foldl buildTagsStep [] := by
  unfold buildTags
  congr 1

lemma buildTags_go_mem (k v : String) :
    ∀ (ts : List Tag) (m : List (String × String)),
      (k, v) ∈ ts.foldl buildTagsStep m →
      (k, v) ∈ m ∨ ∃ t ∈ ts, t.key = some k ∧ t.value = some v := by
  intro ts
  induction ts with
  | nil => intro m h; exact Or.inl (by simpa using h)
  | cons t ts ih =>
    intro m h
    rw [List.foldl_cons] at h
    rcases ih (buildTagsStep m t) h with hm | ⟨t', ht', hkv⟩
    · unfold buildTagsStep at hm
      cases hkey : t.key with
      | none => rw [hkey] at hm; exact Or.inl hm
      | some k0 =>
        cases hval : t.value with
        | none => rw [hkey, hval] at hm; exact Or.inl hm
        | some v0 =>
          rw [hkey, hval] at hm
          rcases mem_insertTag m k0 v0 k v hm with hm' | ⟨hk, hv⟩
          · exact Or.inl hm'
          · exact Or.inr ⟨t, List.mem_cons_self t ts, by rw [hkey, hk],
              by rw [hval, hv]⟩
    · exact Or.inr ⟨t', List.mem_cons_of_mem t ht', hkv⟩

lemma buildTags_go_keys (k : String) :
    ∀ (ts : List Tag) (m : List (String × String)),
      (∃ v, (k, v) ∈ ts.foldl buildTagsStep m) ↔
        (∃ v, (k, v) ∈ m) ∨
          ∃ t ∈ ts, t.key = some k ∧ ∃ v, t.value = some v := by
  intro ts
  induction ts with
  | nil => intro m; simp
  | cons t ts ih =>
    intro m
    rw [List.foldl_cons, ih (buildTagsStep m t)]
    unfold buildTagsStep
    cases hkey : t.key with
    | none =>
      simp only [List.mem_cons]
      constructor
      · rintro (hm | htail)
        · exact Or.inl hm
        · exact Or.inr (by
            rcases htail with ⟨t', ht', hp⟩
            exact ⟨t', Or.inr ht', hp⟩)
      · rintro (hm | ⟨t', ht' | ht', hp⟩)
        · exact Or.inl hm
        · rw [← ht'] at hkey
          rw [hkey] at hp
          exact absurd hp.1 (by simp)
        · exact Or.inr ⟨t', ht', hp⟩
    | some k0 =>
      cases hval : t.value with
      | none =>
        simp only [List.mem_cons]
        constructor
        · rintro (hm | htail)
          · exact Or.inl hm
          · exact Or.inr (by
              rcases htail with ⟨t', ht', hp⟩
              exact ⟨t', Or.inr ht', hp⟩)
        · rintro (hm | ⟨t', ht' | ht', hp⟩)
          · exact Or.inl hm
          · rw [← ht'] at hval
            rw [hval] at hp
            rcases hp.2 with ⟨v, hv⟩
            exact absurd hv (by simp)
          · exact Or.inr ⟨t', ht', hp⟩
      | some v0 =>
        rw [keys_insertTag]
        simp only [List.mem_cons]
        constructor
        · rintro ((hk | ⟨v', hm⟩) | ⟨t', ht', hp⟩)
          · exact Or.inr ⟨t, Or.inl rfl, by rw [hkey, hk], v0, hval⟩
          · exact Or.inl ⟨v', hm⟩
          · exact Or.inr ⟨t', Or.inr ht', hp⟩
        · rintro (⟨v', hm⟩ | ⟨t', ht' | ht', hp⟩)
          · exact Or.inl (Or.inr ⟨v', hm⟩)
          · refine Or.inl (Or.inl ?_)
            subst ht'
            have hsome := hkey.symm.trans hp.1
            injection hsome with hsome
            exact hsome.symm
          · exact Or.inr ⟨t', ht', hp⟩

lemma buildTags_mem (ts : List Tag) (k v : String)
    (h : (k, v) ∈ buildTags ts) :
    ∃ t ∈ ts, t.key = some k ∧ t.value = some v := by
  rw [buildTags_eq_foldl] at h
  rcases buildTags_go_mem k v ts [] h with hm | hgood
  · simp at hm
  · exact hgood

lemma buildTags_keys (ts : List Tag) (k : String) :
    (∃ v, (k, v) ∈ buildTags ts) ↔
      ∃ t ∈ ts, t.key = some k ∧ ∃ v, t.value = some v := by
  rw [buildTags_eq_foldl, buildTags_go_keys]
  simp

lemma foldl_append_lines (f : ModelsStack → String) :
    ∀ (l : List ModelsStack) (init : String),
      l.foldl (fun acc x => acc ++ f x ++ "\n") init
        = init ++ linesConcat (l.map f) := by
  intro l
  induction l with
  | nil =>
    intro init
    simp [linesConcat]
  | cons x xs ih =>
    intro init
    rw [List.foldl_cons, ih, List.map_cons, linesConcat]
    simp [String.append_assoc]

lemma linesConcat_eq_joinWith :
    ∀ l : List String, l ≠ [] → linesConcat l = joinWith "\n" l ++ "\n" := by
  intro l
  induction l with
  | nil => intro h; exact absurd rfl h
  | cons x xs ih =>
    intro _
    cases xs with
    | nil => simp [linesConcat, joinWith]
    | cons y ys =>
      rw [linesConcat, ih (by simp)]
      show x ++ "\n" ++ (joinWith "\n" (y :: ys) ++ "\n")
        = x ++ "\n" ++ joinWith "\n" (y :: ys) ++ "\n"
      simp [String.append_assoc]

lemma stripTrailingNewline_append (s : String) :
    stripTrailingNewline (s ++ "\n") = s := by
  unfold stripTrailingNewline
  have hdata : (s ++ "\n").data = s.data ++ [Char.ofNat 10] := by
    simp [String.data_append]
  rw [hdata, List.getLast?_concat, List.dropLast_concat]
  simp

lemma lexLe_total : ∀ xs ys : List Char,
    lexLe xs ys = true ∨ lexLe ys xs = true := by
  intro xs
  induction xs with
  | nil => intro ys; exact Or.inl rfl
  | cons x xs ih =>
    intro ys
    cases ys with
    | nil => exact Or.inr rfl
    | cons y ys =>
      by_cases h1 : x.toNat < y.toNat
      · left; simp [lexLe, h1]
      · by_cases h2 : y.toNat < x.toNat
        · right; simp [lexLe, h2]
        · rcases ih ys with h | h
          · left; simp [lexLe, h1, h2, h]
          · right; simp [lexLe, h1, h2, h]

lemma lexLe_trans : ∀ xs ys zs : List Char,
    lexLe xs ys = true → lexLe ys zs = true → lexLe xs zs = true := by
  intro xs
  induction xs with
  | nil => intro ys zs _ _; rfl
  | cons x xs ih =>
    intro ys zs hxy hyz
    cases ys with
    | nil => simp [lexLe] at hxy
    | cons y ys =>
      cases zs with
      | nil => simp [lexLe] at hyz
      | cons z zs =>
        simp only [lexLe] at hxy hyz ⊢
        split_ifs at hxy hyz ⊢ <;>
          first
            | rfl
            | (exact ih ys zs hxy hyz)
            | omega

lemma strLe_total (a b : String) : strLe a b = true ∨ strLe b a = true :=
  lexLe_total a.data b.data

lemma strLe_trans (a b c : String) (h1 : strLe a b = true)
    (h2 : strLe b c = true) : strLe a c = true :=
  lexLe_trans a.data b.data c.data h1 h2

lemma mem_insertSortedKey (k z : String) :
    ∀ l : List String, z ∈ insertSortedKey k l ↔ z = k ∨ z ∈ l := by
  intro l
  induction l with
  | nil => simp [insertSortedKey]
  | cons x xs ih =>
    unfold insertSortedKey
    by_cases h : strLe k x = true
    · simp [h]
    · simp only [if_neg h, List.mem_cons, ih]
      tauto

lemma pairwise_insertSortedKey (k : String) :
    ∀ l : List String,
      List.Pairwise (fun a b => strLe a b = true) l →
      List.Pairwise (fun a b => strLe a b = true) (insertSortedKey k l) := by
  intro l
  induction l with
  | nil => intro _; simp [insertSortedKey]
  | cons x xs ih =>
    intro h
    unfold insertSortedKey
    by_cases hkx : strLe k x = true
    · rw [if_pos hkx]
      refine List.Pairwise.cons ?_ h
      intro z hz
      rcases List.mem_cons.mp hz with hz | hz
      · exact hz ▸ hkx
      · exact strLe_trans k x z hkx (List.rel_of_pairwise_cons h hz)
    · rw [if_neg hkx]
      refine List.Pairwise.cons ?_ (ih (List.Pairwise.of_cons h))
      intro z hz
      rcases (mem_insertSortedKey k z xs).mp hz with hz | hz
      · rcases strLe_total k x with hk | hk
        · exact absurd hk hkx
        · exact hz.symm ▸ hk
      · exact List.rel_of_pairwise_cons h hz

lemma sortStrings_sorted :
    ∀ l : List String,
      List.Pairwise (fun a b => strLe a b = true) (sortStrings l) := by
  intro l
  induction l with
  | nil => simp [sortStrings]
  | cons x xs ih => exact pairwise_insertSortedKey x (sortStrings xs) ih

lemma insertSortedKey_perm (k : String) :
    ∀ l : List String, (insertSortedKey k l).Perm (k :: l) := by
  intro l
  induction l with
  | nil => simp [insertSortedKey]
  | cons x xs ih =>
    unfold insertSortedKey
    by_cases h : strLe k x = true
    · rw [if_pos h]
    · rw [if_neg h]
      exact (List.Perm.cons x ih).trans (List.Perm.swap k x xs)

lemma sortStrings_perm : ∀ l : List String, (sortStrings l).Perm l := by
  intro l
  induction l with
  | nil => simp [sortStrings]
  | cons x xs ih =>
    exact (insertSortedKey_perm x (sortStrings xs)).trans (List.Perm.cons x ih)

/-- C1: the signature-bucket rule matches exactly when some resource entry
has logical id `ServerlessDeploymentBucket` and type `AWS::S3::Bucket`
(both required, case-sensitive, exact); an empty resource list never
matches; on a match the reason is the exact fixed string. -/
theorem serverlessDeploymentBucketRule_check_spec
    (resources : List StackResource) (details : Option TypesStack) :
    ((ServerlessDeploymentBucketRule.check resources details).1 = true ↔
      ∃ r ∈ resources,
        r.logicalResourceId = some "ServerlessDeploymentBucket" ∧
        r.resourceType = some "AWS::S3::Bucket") ∧
    (ServerlessDeploymentBucketRule.check [] details).1 = false ∧
    ((ServerlessDeploymentBucketRule.check resources details).1 = true →
      (ServerlessDeploymentBucketRule.check resources details).2 =
        "Contains resource with logical ID \x27ServerlessDeploymentBucket\x27") := by
  have hmain : ∀ rs : List StackResource,
      hasServerlessDeploymentBucket rs = true ↔
        ∃ r ∈ rs,
          r.logicalResourceId = some "ServerlessDeploymentBucket" ∧
          r.resourceType = some "AWS::S3::Bucket" := by
    intro rs
    induction rs with
    | nil => simp [hasServerlessDeploymentBucket]
    | cons r rs ih =>
      by_cases h : r.logicalResourceId = some "ServerlessDeploymentBucket" ∧
          r.resourceType = some "AWS::S3::Bucket"
      · simp [hasServerlessDeploymentBucket, h]
      · simp only [hasServerlessDeploymentBucket, if_neg h, ih, List.mem_cons]
        constructor
        · rintro ⟨x, hx, hprop⟩; exact ⟨x, Or.inr hx, hprop⟩
        · rintro ⟨x, hx | hx, hprop⟩
          · exact absurd (hx ▸ hprop) h
          · exact ⟨x, hx, hprop⟩
  refine ⟨?_, ?_, ?_⟩
  · unfold ServerlessDeploymentBucketRule
    by_cases h : hasServerlessDeploymentBucket resources = true
    · simpa [h] using (hmain resources).mp h
    · have : ¬ ∃ r ∈ resources,
          r.logicalResourceId = some "ServerlessDeploymentBucket" ∧
          r.resourceType = some "AWS::S3::Bucket" := fun hc =>
        h ((hmain resources).mpr hc)
      simp only [Bool.not_eq_true] at h
      simp [h, this]
  · simp [ServerlessDeploymentBucketRule, hasServerlessDeploymentBucket]
  · intro h
    unfold ServerlessDeploymentBucketRule at h ⊢
    by_cases hb : hasServerlessDeploymentBucket resources = true
    · simp [hb]
    · simp only [Bool.not_eq_true] at hb
      simp [hb] at h

/-- Witness for C1 at a concrete resource list. -/
theorem serverlessDeploymentBucketRule_check_spec_witness :
    (ServerlessDeploymentBucketRule.check
        [⟨some "ServerlessDeploymentBucket", some "AWS::S3::Bucket"⟩] none).2 =
      "Contains resource with logical ID \x27ServerlessDeploymentBucket\x27" :=
  (serverlessDeploymentBucketRule_check_spec
      [⟨some "ServerlessDeploymentBucket", some "AWS::S3::Bucket"⟩] none).2.2
    (by decide)

/-- C2: for every rule engine and input, `Evaluate`'s flag is true iff its
reason list is non-empty, and the reason list has one reason per matching
rule, in registration order. -/
theorem evaluate_flag_iff_reasons_nonempty (re : RuleEngine)
    (resources : List StackResource) (details : Option TypesStack) :
    ((Evaluate re resources details).1 = true ↔
      (Evaluate re resources details).2 ≠ []) ∧
    (Evaluate re resources details).2 =
      re.rules.filterMap (ruleReason resources details) := by
  rw [evaluate_eq]
  exact ⟨any_check_iff_filterMap_ne_nil re.rules resources details, rfl⟩

/-- Witness for C2: the single-rule default engine on a matching resource
list has a non-empty reason list. -/
theorem evaluate_flag_iff_reasons_nonempty_witness :
    (Evaluate NewRuleEngine
      [⟨some "ServerlessDeploymentBucket", some "AWS::S3::Bucket"⟩] none).2 ≠ [] :=
  (evaluate_flag_iff_reasons_nonempty NewRuleEngine
    [⟨some "ServerlessDeploymentBucket", some "AWS::S3::Bucket"⟩] none).1.mp
    (by decide)

/-- C8: rule evaluation is deterministic (equal inputs give equal verdicts)
and idempotent: the state-passing form returns the engine unchanged, and a
second run on the post-state engine returns the same verdict and state. -/
theorem evaluate_deterministic_idempotent (re : RuleEngine)
    (resources : List StackResource) (details : Option TypesStack) :
    (EvaluateSt re resources details).2 = re ∧
    EvaluateSt (EvaluateSt re resources details).2 resources details =
      EvaluateSt re resources details ∧
    Evaluate re resources details = Evaluate re resources details := by
  exact ⟨rfl, rfl, rfl⟩

/-- C3: `DetectServerlessStacks` returns the error `e` exactly when the
candidate-listing call returns `e` — the listing error is propagated as is,
and no per-stack failure ever surfaces as an error. -/
theorem detectServerlessStacks_error_iff_listing_error (d : Detector)
    (now : Nat) (e : String) :
    DetectServerlessStacks d now = .error e ↔
      d.client.listActiveStacks = .error e := by
  unfold DetectServerlessStacks
  cases h : d.client.listActiveStacks with
  | error e0 => simp
  | ok summaries => simp [processStacksConcurrently]

/-- Witness for C3: a listing failure is surfaced verbatim by detection. -/
theorem detectServerlessStacks_error_iff_listing_error_witness :
    DetectServerlessStacks (NewDetector clientListFail "us-east-1") 1 =
      .error "AccessDenied" :=
  (detectServerlessStacks_error_iff_listing_error
    (NewDetector clientListFail "us-east-1") 1 "AccessDenied").mpr rfl

/-- C4: per-stack failure isolation.  When the listing succeeds, detection
returns the per-stack results with no error; every output element comes from
some candidate; and a candidate with a nil name or a failing resource fetch
contributes nothing. -/
theorem detect_per_stack_isolation (d : Detector) (now : Nat)
    (summaries : List StackSummary)
    (hlist : d.client.listActiveStacks = .ok summaries) :
    DetectServerlessStacks d now =
      .ok (summaries.filterMap (processStack d now)) ∧
    (∀ m ∈ summaries.filterMap (processStack d now),
      ∃ s ∈ summaries, processStack d now s = some m) ∧
    (∀ s ∈ summaries,
      (s.stackName = none ∨
        ∃ nm e, s.stackName = some nm ∧
          d.client.getStackResources nm = .error e) →
      processStack d now s = none) := by
  refine ⟨?_, ?_, ?_⟩
  · unfold DetectServerlessStacks
    rw [hlist]
    rfl
  · intro m hm
    rcases List.mem_filterMap.mp hm with ⟨s, hs, hps⟩
    exact ⟨s, hs, hps⟩
  · rintro s _hs (hname | ⟨nm, e, hname, hres⟩)
    · unfold processStack
      rw [hname]
    · simp only [processStack, hname, hres]

/-- Witness for C4: with one of three candidates failing its resource fetch,
detection succeeds and reports only the matching remaining stack. -/
theorem detect_per_stack_isolation_witness :
    DetectServerlessStacks (NewDetector clientABC "us-east-1") 3 =
      .ok [{ stackName := "app-a", stackID := "id-a", region := "us-east-1",
             createdAt := 5, updatedAt := 5, description := "",
             stackTags := some [],
             reasons :=
               ["Contains resource with logical ID \x27ServerlessDeploymentBucket\x27"] }] ∧
    processStack (NewDetector clientABC "us-east-1") 3 summaryB = none := by
  have h := detect_per_stack_isolation (NewDetector clientABC "us-east-1") 3
    [summaryA, summaryB, summaryC] rfl
  refine ⟨h.1.trans (congrArg Except.ok (by decide)), ?_⟩
  exact h.2.2 summaryB (by decide)
    (Or.inr ⟨"app-b", "throttled", rfl, rfl⟩)

/-- C5: a stack whose detail fetch fails but whose resources match is still
reported: `processStack` emits exactly one result for it, with empty
description, empty (but initialized) tag map, and the reason list from the
matching rules. -/
theorem processStack_detail_failure_still_reported (d : Detector) (now : Nat)
    (s : StackSummary) (nm : String) (resources : List StackResource)
    (e : String)
    (hname : s.stackName = some nm)
    (hres : d.client.getStackResources nm = .ok resources)
    (hdet : d.client.getStackDetails nm = .error e)
    (hmatch : (Evaluate d.ruleEngine resources none).1 = true) :
    processStack d now s =
      some (convertToModel d now s none (Evaluate d.ruleEngine resources none).2) ∧
    (convertToModel d now s none
      (Evaluate d.ruleEngine resources none).2).description = "" ∧
    (convertToModel d now s none
      (Evaluate d.ruleEngine resources none).2).stackTags = some [] ∧
    (convertToModel d now s none
      (Evaluate d.ruleEngine resources none).2).reasons =
      (Evaluate d.ruleEngine resources none).2 := by
  refine ⟨?_, ?_, ?_, ?_⟩
  · simp only [processStack, hname, hres, hdet, hmatch, if_pos]
  · simp [convertToModel_eq]
  · simp [convertToModel_eq]
  · simp [convertToModel_eq]

/-- Witness for C5 at the concrete fixture. -/
theorem processStack_detail_failure_still_reported_witness :
    processStack (NewDetector clientDetailFail "eu-west-1") 11
        ⟨some "app-e", some "id-e", some 9, none⟩ =
      some (convertToModel (NewDetector clientDetailFail "eu-west-1") 11
        ⟨some "app-e", some "id-e", some 9, none⟩ none
        (Evaluate (NewDetector clientDetailFail "eu-west-1").ruleEngine
          [⟨some "ServerlessDeploymentBucket", some "AWS::S3::Bucket"⟩]
          none).2) ∧
    (convertToModel (NewDetector clientDetailFail "eu-west-1") 11
        ⟨some "app-e", some "id-e", some 9, none⟩ none
        (Evaluate (NewDetector clientDetailFail "eu-west-1").ruleEngine
          [⟨some "ServerlessDeploymentBucket", some "AWS::S3::Bucket"⟩]
          none).2).stackTags = some [] :=
  have h := processStack_detail_failure_still_reported
    (NewDetector clientDetailFail "eu-west-1") 11
    ⟨some "app-e", some "id-e", some 9, none⟩ "app-e"
    [⟨some "ServerlessDeploymentBucket", some "AWS::S3::Bucket"⟩] "denied"
    rfl rfl rfl (by decide)
  ⟨h.1, h.2.2.1⟩

/-- C6: output timestamps are never zero (given a non-zero clock): when the
source provides no creation timestamp the current time is substituted, and
when no update timestamp is available the creation timestamp is mirrored
into the update timestamp. -/
theorem convertToModel_timestamps_never_zero (d : Detector) (now : Nat)
    (summary : StackSummary) (details : Option TypesStack)
    (reasons : List String) (h : 0 < now) :
    (convertToModel d now summary details reasons).createdAt ≠ 0 ∧
    (convertToModel d now summary details reasons).updatedAt ≠ 0 ∧
    (sourceCreatedAt summary details = 0 →
      (convertToModel d now summary details reasons).createdAt = now) ∧
    (sourceUpdatedAt summary details = 0 →
      (convertToModel d now summary details reasons).updatedAt =
        (convertToModel d now summary details reasons).createdAt) := by
  rw [convertToModel_eq]
  refine ⟨?_, ?_, ?_, ?_⟩ <;> simp only
  · split_ifs with hc
    · omega
    · exact hc
  · split_ifs with hu hc
    · omega
    · exact hc
    · exact hu
  · intro hc; simp [hc]
  · intro hu; simp [hu]

/-- Witness for C6 with an empty summary, no detail record and clock 42:
both timestamps fall back to the clock. -/
theorem convertToModel_timestamps_never_zero_witness :
    (convertToModel (NewDetector ⟨.ok [], fun _ => .ok [], fun _ => .ok none⟩
        "us-east-1") 42 ⟨none, none, none, none⟩ none []).createdAt ≠ 0 :=
  (convertToModel_timestamps_never_zero _ 42 ⟨none, none, none, none⟩ none []
    (by decide)).1

/-- C7: the effective worker count is the minimum of the configured pool
size (default 10 from `NewDetector`) and the candidate count, and an empty
candidate list yields an empty output with no error. -/
theorem worker_pool_clamp_and_empty_input (client : AWSClient)
    (region : String) (now : Nat)
    (hempty : client.listActiveStacks = .ok []) :
    (NewDetector client region).maxWorkers = 10 ∧
    (∀ (maxWorkers : Nat) (summaries : List StackSummary),
      effectiveNumWorkers maxWorkers summaries =
        min maxWorkers summaries.length) ∧
    DetectServerlessStacks (NewDetector client region) now = .ok [] := by
  refine ⟨rfl, ?_, ?_⟩
  · intro maxWorkers summaries
    unfold effectiveNumWorkers
    rw [Nat.min_def]
    split_ifs <;> omega
  · unfold DetectServerlessStacks
    simp only [NewDetector]
    rw [hempty]
    rfl

/-- Witness for C7 at the empty-listing fixture. -/
theorem worker_pool_clamp_and_empty_input_witness :
    (NewDetector clientEmpty "us-east-1").maxWorkers = 10 ∧
    DetectServerlessStacks (NewDetector clientEmpty "us-east-1") 4 = .ok [] :=
  have h := worker_pool_clamp_and_empty_input clientEmpty "us-east-1" 4 rfl
  ⟨h.1, h.2.2⟩

/-- C9: the TSV rendering is one header row with the fixed column names,
then one row per result in list order, rows joined by newline and cells by
tab; reasons and tags are flattened into single `;`-joined cells with
embedded tab, newline and carriage-return characters escaped as the literal
two-character sequences; tag entries are rendered as `key=value` pairs
sorted ascending by key (a permutation of the tag map's keys). -/
theorem tsvFormat_spec (stackList : List ModelsStack) :
    TSVFormat stackList =
      joinWith "\n"
        ("StackName\tStackID\tRegion\tDescription\tCreatedAt\tUpdatedAt\tTags\tReasons"
          :: stackList.map (fun stack => joinWith "\t" (tsvRow stack))) ∧
    (∀ reasons : List String,
      formatReasons reasons = joinWith ";" (reasons.map escapeValue)) ∧
    (∀ ts : List (String × String),
      formatTags (some ts) =
        joinWith ";" ((sortStrings (ts.map Prod.fst)).map
          (fun k => escapeValue k ++ "=" ++ escapeValue (lookupTag ts k))) ∧
      List.Pairwise (fun a b => strLe a b = true)
        (sortStrings (ts.map Prod.fst)) ∧
      (sortStrings (ts.map Prod.fst)).Perm (ts.map Prod.fst)) ∧
    escapeValue "a\tb\nc\rd" = "a\\tb\\nc\\rd" := by
  refine ⟨?_, ?_, ?_, ?_⟩
  · unfold TSVFormat
    dsimp only
    rw [foldl_append_lines]
    have hline :
        (joinWith "\t" ["StackName", "StackID", "Region", "Description",
            "CreatedAt", "UpdatedAt", "Tags", "Reasons"] ++ "\n") ++
          linesConcat (stackList.map (fun stack => joinWith "\t" (tsvRow stack)))
        = linesConcat
            ("StackName\tStackID\tRegion\tDescription\tCreatedAt\tUpdatedAt\tTags\tReasons"
              :: stackList.map (fun stack => joinWith "\t" (tsvRow stack))) := by
      rw [linesConcat]
      congr 1
    rw [hline, linesConcat_eq_joinWith _ (by simp), stripTrailingNewline_append]
  · intro reasons
    cases reasons with
    | nil => rfl
    | cons r rs => simp [formatReasons]
  · intro ts
    refine ⟨?_, sortStrings_sorted _, sortStrings_perm _⟩
    cases ts with
    | nil => rfl
    | cons p ps => simp [formatTags]
  · decide

/-- C10: the emitted tag map is always initialized (never the nil map): with
a detail record it holds exactly the detail's fully-present tag entries
(entries with a nil key or nil value are dropped), and without one it is
the empty map. -/
theorem convertToModel_stackTags_initialized (d : Detector) (now : Nat)
    (summary : StackSummary) (details : Option TypesStack)
    (reasons : List String) :
    (convertToModel d now summary details reasons).stackTags ≠ none ∧
    (details = none →
      (convertToModel d now summary details reasons).stackTags = some []) ∧
    (∀ dd, details = some dd →
      (convertToModel d now summary details reasons).stackTags =
        some (buildTags dd.tags) ∧
      (∀ k v, (k, v) ∈ buildTags dd.tags →
        ∃ t ∈ dd.tags, t.key = some k ∧ t.value = some v) ∧
      (∀ k, (∃ v, (k, v) ∈ buildTags dd.tags) ↔
        ∃ t ∈ dd.tags, t.key = some k ∧ ∃ v, t.value = some v)) := by
  refine ⟨?_, ?_, ?_⟩
  · rw [convertToModel_eq]
    cases details <;> simp
  · intro h; subst h; rw [convertToModel_eq]
  · intro dd h; subst h
    refine ⟨by rw [convertToModel_eq], ?_, ?_⟩
    · exact fun k v => buildTags_mem dd.tags k v
    · exact fun k => buildTags_keys dd.tags k

/-- Witness for C10: a detail record with one fully-present tag, one
keyless tag and one valueless tag yields exactly the one present entry. -/
theorem convertToModel_stackTags_initialized_witness :
    (convertToModel (NewDetector ⟨.ok [], fun _ => .ok [], fun _ => .ok none⟩
          "us-east-1") 1 ⟨none, none, none, none⟩
        (some ⟨none, none, none,
          [⟨some "env", some "prod"⟩, ⟨none, some "x"⟩, ⟨some "y", none⟩]⟩)
        []).stackTags = some [("env", "prod")] := by
  have h := (convertToModel_stackTags_initialized
      (NewDetector ⟨.ok [], fun _ => .ok [], fun _ => .ok none⟩ "us-east-1") 1
      ⟨none, none, none, none⟩
      (some ⟨none, none, none,
        [⟨some "env", some "prod"⟩, ⟨none, some "x"⟩, ⟨some "y", none⟩]⟩)
      []).2.2 _ rfl
  exact h.1.trans (by decide)
